import Mathlib

/-!
Verification of the statistics and recommendation engine of the
sanmou-yanwu drafting assistant.

The numeric model uses `ℝ` for the JavaScript floating-point values and
`ℕ` for the win/loss counters.  Statistics maps (plain JavaScript objects
indexed by string keys) are modelled as functions `String → Option PairCount`;
`none` is the "key absent" case.

The definitions below are shallow embeddings of
`src/web/src/services/recommendationEngine.js` (first revision of the engine
unless a name carries the `V3` suffix, which marks the later revision that
starts with `HERO_RECOMMEND_OPTIONS`) and of the game-state module
(`createInitialGameState` / `updateGameState`).
-/

noncomputable section

open Classical

/-- Win/loss counters attached to a statistics key (`{wins, losses}`). -/
structure PairCount where
  wins : ℕ
  losses : ℕ
deriving DecidableEq

/-- Wilson score interval lower bound for a Bernoulli parameter, at the
engine's default confidence (z = 1.96).  Mirrors `wilsonLowerBound`:
returns 0 when `total = 0`, otherwise
`max 0 ((centre - margin) / denom)` with
`phat = wins/total`, `denom = 1 + z²/total`, `centre = phat + z²/(2 total)`
and `margin = z · sqrt((phat (1-phat) + z²/(4 total)) / total)`. -/
def wilsonLowerBound (wins total : ℕ) : ℝ :=
  if total = 0 then 0
  else
    let z : ℝ := 1.96
    let phat : ℝ := (wins : ℝ) / (total : ℝ)
    let denom : ℝ := 1 + z * z / (total : ℝ)
    let centre : ℝ := phat + z * z / (2 * (total : ℝ))
    let margin : ℝ :=
      z * Real.sqrt ((phat * (1 - phat) + z * z / (4 * (total : ℝ))) / (total : ℝ))
    max 0 ((centre - margin) / denom)

/-! ### Combination enumerator

`generate3HeroCombinations` iterates over index triples `i < j < k` of the
pool and pushes the three selected elements sorted into canonical order.
`comb2` captures the two inner loops (`j < k`) as the in-order list of
position pairs, and `comb3` the full three-level loop. -/

/-- Pairs of elements of the pool taken at positions `j < k`, in loop order:
mirrors the two inner loops of `generate3HeroCombinations`. -/
def comb2 {α : Type} : List α → List (α × α)
  | [] => []
  | x :: xs => (xs.map fun y => (x, y)) ++ comb2 xs

/-- The three chosen elements sorted into canonical order:
mirrors the JavaScript expression sorting the selected triple. -/
def sort3 {α : Type} [LinearOrder α] (a b c : α) : List α :=
  List.insertionSort (· ≤ ·) [a, b, c]

/-- Elements of the pool taken at positions `i < j < k`, each triple sorted:
mirrors the three nested loops of `generate3HeroCombinations`. -/
def comb3 {α : Type} [LinearOrder α] : List α → List (List α)
  | [] => []
  | x :: xs => ((comb2 xs).map fun p => sort3 x p.1 p.2) ++ comb3 xs

/-- Generate all 3-hero combinations of a team, as in the engine:
returns the empty list for a pool of fewer than 3 members, otherwise every
index triple `i < j < k` contributes its (sorted) triple of heroes. -/
def generate3HeroCombinations (team : List String) : List (List String) :=
  if team.length < 3 then [] else comb3 team

/-! ### Statistics accessors

Statistics maps are JavaScript objects keyed by strings; symmetric
relations use the two identifiers sorted into canonical order and joined
with a comma.  A failed lookup yields the zero-evidence marker
`{wilson: 0, total: 0}`. -/

/-- Canonical key for a symmetric pair, as built by the engine from the
two identifiers sorted and joined with a comma. -/
def pairKey (a b : String) : String :=
  if a ≤ b then a ++ "," ++ b else b ++ "," ++ a

/-- Result of a pair-statistics lookup: the Wilson score and the number of
observed games. -/
structure WilsonResult where
  wilson : ℝ
  total : ℕ

/-- Hero-pair Wilson lookup (`getHeroPairWilson`): empty identifiers and
missing or empty entries give the zero marker, otherwise the Wilson lower
bound of the pair's record together with its sample size. -/
def getHeroPairWilson (h1 h2 : String)
    (heroPairStats : String → Option PairCount) : WilsonResult :=
  if h1 = "" ∨ h2 = "" then ⟨0, 0⟩
  else
    match heroPairStats (pairKey h1 h2) with
    | none => ⟨0, 0⟩
    | some stats =>
        if stats.wins + stats.losses ≤ 0 then ⟨0, 0⟩
        else ⟨wilsonLowerBound stats.wins (stats.wins + stats.losses),
          stats.wins + stats.losses⟩

/-- Skill-pair Wilson lookup (`getSkillPairWilson`), same canonical-key
construction as `getHeroPairWilson`. -/
def getSkillPairWilson (s1 s2 : String)
    (skillPairStats : String → Option PairCount) : WilsonResult :=
  if s1 = "" ∨ s2 = "" then ⟨0, 0⟩
  else
    match skillPairStats (pairKey s1 s2) with
    | none => ⟨0, 0⟩
    | some stats =>
        if stats.wins + stats.losses ≤ 0 then ⟨0, 0⟩
        else ⟨wilsonLowerBound stats.wins (stats.wins + stats.losses),
          stats.wins + stats.losses⟩

/-- Skill-hero lookup (`getSkillHeroPairWilson`): the key is ordered, hero
first, so this accessor is not symmetric. -/
def getSkillHeroPairWilson (hero skill : String)
    (skillHeroPairStats : String → Option PairCount) : WilsonResult :=
  if hero = "" ∨ skill = "" then ⟨0, 0⟩
  else
    match skillHeroPairStats (hero ++ "," ++ skill) with
    | none => ⟨0, 0⟩
    | some stats =>
        if stats.wins + stats.losses ≤ 0 then ⟨0, 0⟩
        else ⟨wilsonLowerBound stats.wins (stats.wins + stats.losses),
          stats.wins + stats.losses⟩

/-! ### Set scorer (first engine revision)

The hero scorer sums the set members' individual confidence scores and
adds three synergy sub-scores.  Every pair visited by a synergy loop
increments the pair counter; a pair with zero observed games subtracts
`unknownPairPenalty`, a pair below the `minGames` floor subtracts
`lowCountPenalty`, and an eligible pair with a Wilson score at or above
`minWilson` adds `wilson * weight`.  When `normalize` is set a sub-score
is divided by its pair counter. -/

/-- Aggregate statistics snapshot consumed read-only by the scorers. -/
structure BattleStats where
  hero_stats : String → Option PairCount
  hero_pair_stats : String → Option PairCount
  hero_combinations : String → Option PairCount
  skill_stats : String → Option PairCount
  skill_pair_stats : String → Option PairCount
  skill_hero_pair_stats : String → Option PairCount

/-- Options of `recommendHeroSet` with the engine's default values. -/
structure HeroOptions where
  minWilson : ℝ
  minGames : ℕ
  includeIntraSet : Bool
  weightCurrentPair : ℝ
  weightIntraPair : ℝ
  weightFullCombo : ℝ
  normalize : Bool
  unknownPairPenalty : ℝ
  lowCountPenalty : ℝ

/-- Defaults destructured at the top of `recommendHeroSet`. -/
def defaultHeroOptions : HeroOptions :=
  ⟨0.50, 2, true, 20.0, 15.0, 30.0, true, 2.0, 0.5⟩

/-- Options of `recommendSkillSet` with the engine's default values. -/
structure SkillOptions where
  minWilson : ℝ
  minGames : ℕ
  includeIntraSet : Bool
  weightCurrentSkillPair : ℝ
  weightIntraSkillPair : ℝ
  weightSkillHeroPair : ℝ
  normalize : Bool
  unknownPairPenalty : ℝ
  lowCountPenalty : ℝ

/-- Defaults destructured at the top of `recommendSkillSet`. -/
def defaultSkillOptions : SkillOptions :=
  ⟨0.50, 2, true, 15.0, 12.0, 8.0, true, 1.5, 0.4⟩

/-- Individual hero confidence score (`getHeroConfidenceScore`, default
scale 100): zero for a missing or empty record, otherwise the scaled
Wilson lower bound. -/
def getHeroConfidenceScore (heroName : String)
    (heroStats : String → Option PairCount) : ℝ :=
  match heroStats heroName with
  | none => 0
  | some stats =>
      if stats.wins + stats.losses ≤ 0 then 0
      else 100 * wilsonLowerBound stats.wins (stats.wins + stats.losses)

/-- Individual skill confidence score (`getSkillConfidenceScore`). -/
def getSkillConfidenceScore (skillName : String)
    (skillStats : String → Option PairCount) : ℝ :=
  match skillStats skillName with
  | none => 0
  | some stats =>
      if stats.wins + stats.losses ≤ 0 then 0
      else 100 * wilsonLowerBound stats.wins (stats.wins + stats.losses)

/-- All pairs visited by a doubly nested synergy loop, in loop order. -/
def pairsOf (xs ys : List String) : List (String × String) :=
  xs.flatMap fun x => ys.map fun y => (x, y)

/-- Accumulator of a synergy loop: running sum, pairs visited, pairs with
no observed games, pairs below the `minGames` floor. -/
structure SynAcc where
  sum : ℝ
  pairs : ℕ
  unknown : ℕ
  lowcount : ℕ

/-- Body of the synergy loops of the first-revision scorers. -/
def pairStep (minGames : ℕ)
    (minWilson weight unknownPairPenalty lowCountPenalty : ℝ)
    (lookup : String × String → WilsonResult) (acc : SynAcc)
    (p : String × String) : SynAcc :=
  let r := lookup p
  if r.total = 0 then
    ⟨acc.sum - unknownPairPenalty, acc.pairs + 1, acc.unknown + 1, acc.lowcount⟩
  else if r.total < minGames then
    ⟨acc.sum - lowCountPenalty, acc.pairs + 1, acc.unknown, acc.lowcount + 1⟩
  else if minWilson ≤ r.wilson then
    ⟨acc.sum + r.wilson * weight, acc.pairs + 1, acc.unknown, acc.lowcount⟩
  else
    ⟨acc.sum, acc.pairs + 1, acc.unknown, acc.lowcount⟩

/-- A full synergy loop over its pair list. -/
def synergyLoop (minGames : ℕ)
    (minWilson weight unknownPairPenalty lowCountPenalty : ℝ)
    (lookup : String × String → WilsonResult)
    (ps : List (String × String)) : SynAcc :=
  ps.foldl (pairStep minGames minWilson weight unknownPairPenalty
    lowCountPenalty lookup) ⟨0, 0, 0, 0⟩

/-- Sub-score value of a synergy loop: the sum divided by the number of
visited pairs when `normalize` is set and at least one pair was visited. -/
def normalizePairSum (normalize : Bool) (acc : SynAcc) : ℝ :=
  if normalize ∧ 0 < acc.pairs then acc.sum / (acc.pairs : ℝ) else acc.sum

/-- Body of the full-team 3-hero combination loop: combinations missing
from `hero_combinations` or below the `minGames` floor are skipped
entirely; an eligible combination at or above `minWilson` adds
`wilson * weightFullCombo` and counts as matching. -/
def comboStep (minGames : ℕ) (minWilson weightFullCombo : ℝ)
    (heroCombinations : String → Option PairCount) (acc : ℝ × ℕ)
    (combo : List String) : ℝ × ℕ :=
  match heroCombinations (String.intercalate "," combo) with
  | none => acc
  | some comboStats =>
      if minGames ≤ comboStats.wins + comboStats.losses then
        let w := wilsonLowerBound comboStats.wins
          (comboStats.wins + comboStats.losses)
        if minWilson ≤ w then (acc.1 + w * weightFullCombo, acc.2 + 1)
        else acc
      else acc

/-- Per-set breakdown built by `recommendHeroSet`. -/
structure HeroAnalysis where
  set_index : ℕ
  heroes : List String
  individual_scores : List (String × ℝ)
  current_team_synergy : ℝ
  intra_set_synergy : ℝ
  current_pairs : ℕ
  unknown_current_pairs : ℕ
  lowcount_current_pairs : ℕ
  intra_pairs : ℕ
  unknown_intra_pairs : ℕ
  lowcount_intra_pairs : ℕ
  full_combo_synergy : ℝ
  matching_combos : ℕ
  synergy_total : ℝ
  total_score : ℝ

/-- The loop body of `recommendHeroSet` for one candidate set at index
`i`: individual confidence scores, current-team synergy, intra-set
synergy, full-team 3-hero combination bonus, and their total. -/
def heroAnalysisFor (currentTeam : List String) (bs : BattleStats)
    (o : HeroOptions) (i : ℕ) (heroSet : List String) : HeroAnalysis :=
  let score := (heroSet.map fun h => getHeroConfidenceScore h bs.hero_stats).sum
  let accC := synergyLoop o.minGames o.minWilson o.weightCurrentPair
    o.unknownPairPenalty o.lowCountPenalty
    (fun p => getHeroPairWilson p.1 p.2 bs.hero_pair_stats)
    (pairsOf currentTeam heroSet)
  let currentSum := normalizePairSum o.normalize accC
  let accI := if o.includeIntraSet then
      synergyLoop o.minGames o.minWilson o.weightIntraPair
        o.unknownPairPenalty o.lowCountPenalty
        (fun p => getHeroPairWilson p.1 p.2 bs.hero_pair_stats)
        (comb2 heroSet)
    else ⟨0, 0, 0, 0⟩
  let intraSum := normalizePairSum o.normalize accI
  let fc := (generate3HeroCombinations (currentTeam ++ heroSet)).foldl
    (comboStep o.minGames o.minWilson o.weightFullCombo bs.hero_combinations)
    (0, 0)
  let fullComboSum := if o.normalize ∧ 0 < fc.2 then fc.1 / (fc.2 : ℝ) else fc.1
  let synergyTotal := currentSum + intraSum + fullComboSum
  { set_index := i, heroes := heroSet,
    individual_scores := heroSet.map fun h =>
      (h, getHeroConfidenceScore h bs.hero_stats),
    current_team_synergy := currentSum,
    intra_set_synergy := intraSum,
    current_pairs := accC.pairs,
    unknown_current_pairs := accC.unknown,
    lowcount_current_pairs := accC.lowcount,
    intra_pairs := accI.pairs,
    unknown_intra_pairs := accI.unknown,
    lowcount_intra_pairs := accI.lowcount,
    full_combo_synergy := fullComboSum,
    matching_combos := fc.2,
    synergy_total := synergyTotal,
    total_score := score + synergyTotal }

/-- Per-set breakdown built by `recommendSkillSet`. -/
structure SkillAnalysis where
  set_index : ℕ
  skills : List String
  individual_scores : List (String × ℝ)
  skill_skill_synergy_current : ℝ
  skill_skill_synergy_intra : ℝ
  skill_hero_synergy : ℝ
  current_skill_pairs : ℕ
  unknown_current_skill_pairs : ℕ
  lowcount_current_skill_pairs : ℕ
  intra_skill_pairs : ℕ
  unknown_intra_skill_pairs : ℕ
  lowcount_intra_skill_pairs : ℕ
  skill_hero_pairs : ℕ
  unknown_skill_hero_pairs : ℕ
  lowcount_skill_hero_pairs : ℕ
  synergy_total : ℝ
  total_score : ℝ

/-- The loop body of `recommendSkillSet` for one candidate set at index
`i`: individual skill scores, synergy with the current skills, intra-set
synergy, and cross synergy of the candidate skills with the current
heroes. -/
def skillAnalysisFor (currentHeroes currentSkills : List String)
    (bs : BattleStats) (o : SkillOptions) (i : ℕ)
    (skillSet : List String) : SkillAnalysis :=
  let score := (skillSet.map fun s => getSkillConfidenceScore s bs.skill_stats).sum
  let accC := synergyLoop o.minGames o.minWilson o.weightCurrentSkillPair
    o.unknownPairPenalty o.lowCountPenalty
    (fun p => getSkillPairWilson p.1 p.2 bs.skill_pair_stats)
    (pairsOf currentSkills skillSet)
  let curSum := normalizePairSum o.normalize accC
  let accI := if o.includeIntraSet then
      synergyLoop o.minGames o.minWilson o.weightIntraSkillPair
        o.unknownPairPenalty o.lowCountPenalty
        (fun p => getSkillPairWilson p.1 p.2 bs.skill_pair_stats)
        (comb2 skillSet)
    else ⟨0, 0, 0, 0⟩
  let intraSum := normalizePairSum o.normalize accI
  let accX := synergyLoop o.minGames o.minWilson o.weightSkillHeroPair
    o.unknownPairPenalty o.lowCountPenalty
    (fun p => getSkillHeroPairWilson p.1 p.2 bs.skill_hero_pair_stats)
    (pairsOf currentHeroes skillSet)
  let crossSum := normalizePairSum o.normalize accX
  let synergyTotal := curSum + intraSum + crossSum
  { set_index := i, skills := skillSet,
    individual_scores := skillSet.map fun s =>
      (s, getSkillConfidenceScore s bs.skill_stats),
    skill_skill_synergy_current := curSum,
    skill_skill_synergy_intra := intraSum,
    skill_hero_synergy := crossSum,
    current_skill_pairs := accC.pairs,
    unknown_current_skill_pairs := accC.unknown,
    lowcount_current_skill_pairs := accC.lowcount,
    intra_skill_pairs := accI.pairs,
    unknown_intra_skill_pairs := accI.unknown,
    lowcount_intra_skill_pairs := accI.lowcount,
    skill_hero_pairs := accX.pairs,
    unknown_skill_hero_pairs := accX.unknown,
    lowcount_skill_hero_pairs := accX.lowcount,
    synergy_total := synergyTotal,
    total_score := score + synergyTotal }

/-! ### Orchestrator

The recommendations are built in input order (the set at position `i`
gets `set_index = i`) and then sorted by descending total score with the
stable JavaScript array sort; the recommended set is the first element of
the sorted list.  Like the JavaScript sort, `insertDesc` places a new
element after every already-placed element whose score is at least as
large, so ties keep their input order. -/

/-- Builds the recommendation list in input order with running index. -/
def mapWithIndex {α β : Type} (f : ℕ → α → β) : ℕ → List α → List β
  | _, [] => []
  | i, x :: xs => f i x :: mapWithIndex f (i + 1) xs

/-- Stable descending insertion of one element, by projected score. -/
def insertDesc {α : Type} (score : α → ℝ) (x : α) : List α → List α
  | [] => [x]
  | y :: ys => if score y < score x then x :: y :: ys
      else y :: insertDesc score x ys

/-- Stable descending sort by projected score, modelling the JavaScript
`sort((a, b) => b.total_score - a.total_score)` call. -/
def sortByScoreDesc {α : Type} (score : α → ℝ) (l : List α) : List α :=
  l.foldl (fun acc x => insertDesc score x acc) []

/-- Result of `recommendHeroSet`: the chosen index and all breakdowns. -/
structure HeroRecResult where
  recommended_set : ℕ
  analysis : List HeroAnalysis

/-- Result of `recommendSkillSet`. -/
structure SkillRecResult where
  recommended_set : ℕ
  analysis : List SkillAnalysis

/-- Hero-round orchestrator (`recommendHeroSet`): scores every offered
set, sorts the breakdowns by descending total score, and recommends the
first one.  `none` models the crash on an empty input list
(`recommendations[0]` is undefined there). -/
def recommendHeroSet (availableSets : List (List String))
    (currentTeam : List String) (bs : BattleStats) (o : HeroOptions) :
    Option HeroRecResult :=
  let recs := mapWithIndex (heroAnalysisFor currentTeam bs o) 0 availableSets
  match sortByScoreDesc (fun a => a.total_score) recs with
  | [] => none
  | r :: rest => some ⟨r.set_index, r :: rest⟩

/-- Skill-round orchestrator (`recommendSkillSet`). -/
def recommendSkillSet (availableSets : List (List String))
    (currentHeroes currentSkills : List String) (bs : BattleStats)
    (o : SkillOptions) : Option SkillRecResult :=
  let recs := mapWithIndex (skillAnalysisFor currentHeroes currentSkills bs o)
    0 availableSets
  match sortByScoreDesc (fun a => a.total_score) recs with
  | [] => none
  | r :: rest => some ⟨r.set_index, r :: rest⟩

/-! ### Draft state machine

`createInitialGameState` / `updateGameState` from the client-side game
state module.  `updateGameState` is total: it copies the three arrays
into a fresh state object, appends the chosen set to the hero or skill
list according to the round type, records a history entry carrying the
pre-increment round number, computes the completion flag from the
pre-increment round number, and advances the round.  The value-level
model below captures the data transformation; the reference-level model
further down mirrors the JavaScript array copy/push semantics. -/

/-- One entry of the append-only `round_history` audit trail. -/
structure HistoryEntry where
  round_number : ℕ
  round_type : String
  chosen_set : List String
  set_index : ℕ
deriving DecidableEq

/-- Draft state tracked across the eight rounds. -/
structure GameState where
  current_heroes : List String
  current_skills : List String
  round_number : ℕ
  round_history : List HistoryEntry
deriving DecidableEq

/-- Initial state from the four seed heroes and four seed skills. -/
def createInitialGameState (heroes skills : List String) : GameState :=
  ⟨heroes, skills, 1, []⟩

/-- Value-level model of `updateGameState`: returns the updated state and
the completion flag.  There is no failure case: the function succeeds on
every input state, whatever its round number. -/
def updateGameState (gameState : GameState) (roundType : String)
    (chosenSet : List String) (setIndex : ℕ) : GameState × Bool :=
  let newHeroes := if roundType = "hero" then
    gameState.current_heroes ++ chosenSet else gameState.current_heroes
  let newSkills := if roundType = "hero" then
    gameState.current_skills else gameState.current_skills ++ chosenSet
  let newHistory := gameState.round_history ++
    [⟨gameState.round_number, roundType, chosenSet, setIndex⟩]
  let gameComplete := decide (8 ≤ gameState.round_number)
  (⟨newHeroes, newSkills, gameState.round_number + 1, newHistory⟩,
    gameComplete)

/-! Reference-level model: arrays live in a world of reference cells so
that the JavaScript aliasing behaviour (spread copies allocate fresh
arrays, `push` mutates in place) is visible. -/

/-- Arrays reachable from game states: string arrays and history arrays,
each addressed by an index. -/
structure JSWorld where
  strArrays : List (List String)
  histArrays : List (List HistoryEntry)

/-- Dereference a string-array cell (out-of-range reads give `[]`). -/
def readStr (w : JSWorld) (r : ℕ) : List String :=
  w.strArrays.getD r []

/-- Dereference a history-array cell. -/
def readHist (w : JSWorld) (r : ℕ) : List HistoryEntry :=
  w.histArrays.getD r []

/-- Allocate a fresh string array holding `v` (an array literal such as a
spread copy) and return its reference. -/
def allocStr (w : JSWorld) (v : List String) : JSWorld × ℕ :=
  (⟨w.strArrays ++ [v], w.histArrays⟩, w.strArrays.length)

/-- Allocate a fresh history array. -/
def allocHist (w : JSWorld) (v : List HistoryEntry) : JSWorld × ℕ :=
  (⟨w.strArrays, w.histArrays ++ [v]⟩, w.histArrays.length)

/-- In-place `push` of elements onto the string array at `r`. -/
def pushStr (w : JSWorld) (r : ℕ) (xs : List String) : JSWorld :=
  ⟨w.strArrays.set r (w.strArrays.getD r [] ++ xs), w.histArrays⟩

/-- In-place `push` of an entry onto the history array at `r`. -/
def pushHist (w : JSWorld) (r : ℕ) (xs : List HistoryEntry) : JSWorld :=
  ⟨w.strArrays, w.histArrays.set r (w.histArrays.getD r [] ++ xs)⟩

/-- A game state as JavaScript sees it: references to its three arrays
plus the round counter. -/
structure GameStateRef where
  current_heroes : ℕ
  current_skills : ℕ
  round_number : ℕ
  round_history : ℕ

/-- Reference-level model of `updateGameState`: the object spread copies
the three arrays into fresh cells, the chosen set is pushed onto the
matching fresh copy, the history entry is pushed onto the fresh history
copy, and the completion flag is read off before the round advances. -/
def updateGameStateRef (w : JSWorld) (gs : GameStateRef)
    (roundType : String) (chosenSet : List String) (setIndex : ℕ) :
    JSWorld × GameStateRef × Bool :=
  let a1 := allocStr w (readStr w gs.current_heroes)
  let a2 := allocStr a1.1 (readStr a1.1 gs.current_skills)
  let a3 := allocHist a2.1 (readHist a2.1 gs.round_history)
  let w4 := if roundType = "hero" then pushStr a3.1 a1.2 chosenSet
    else pushStr a3.1 a2.2 chosenSet
  let w5 := pushHist w4 a3.2
    [⟨gs.round_number, roundType, chosenSet, setIndex⟩]
  (w5, ⟨a1.2, a2.2, gs.round_number + 1, a3.2⟩,
    decide (8 ≤ gs.round_number))

/-! ### Later engine revision (V3)

The revision that begins with `HERO_RECOMMEND_OPTIONS` consumes
statistics records whose confidence-adjusted rate (`wilson`) was
precomputed by the external aggregation pipeline, averages only entries
meeting the `minGames` floor (skipping everything else without penalty),
and combines the sub-scores through weights normalized to sum to 1. -/

/-- Statistics record of the later revision: the precomputed `wilson`
field may be absent (`stats.wilson ?? 0` reads it as 0). -/
structure PairCountW where
  wins : ℕ
  losses : ℕ
  wilson : Option ℝ

/-- Result of the later revision's pair lookup. -/
structure WinRateResult where
  adjusted : ℝ
  total : ℕ

/-- Hero-pair lookup of the later revision (`getHeroPairWinRate`): the
canonical comma-joined key, returning the precomputed adjusted rate and
the sample size, or the zero marker. -/
def getHeroPairWinRate (h1 h2 : String)
    (heroPairStats : String → Option PairCountW) : WinRateResult :=
  if h1 = "" ∨ h2 = "" then ⟨0, 0⟩
  else
    match heroPairStats (pairKey h1 h2) with
    | none => ⟨0, 0⟩
    | some stats =>
        if stats.wins + stats.losses ≤ 0 then ⟨0, 0⟩
        else ⟨stats.wilson.getD 0, stats.wins + stats.losses⟩

/-- Body of the later revision's pair-statistics loop (Score 3): a pair
enters the running total and the pair count only when its sample size
meets the `minGames` floor; otherwise the accumulator is untouched. -/
def pairStatsStepV3 (minGames : ℕ)
    (heroPairStats : String → Option PairCountW) (acc : ℝ × ℕ)
    (p : String × String) : ℝ × ℕ :=
  let r := getHeroPairWinRate p.1 p.2 heroPairStats
  if minGames ≤ r.total then (acc.1 + r.adjusted * 100, acc.2 + 1) else acc

/-- Weight-normalization block of the later revision's hero scorer: the
four configured weights are divided by their sum when it is positive,
with equal weighting (0.25 each) as the fallback. -/
def normalizeWeights4 (w1 w2 w3 w4 : ℝ) : ℝ × ℝ × ℝ × ℝ :=
  if 0 < w1 + w2 + w3 + w4 then
    (w1 / (w1 + w2 + w3 + w4), w2 / (w1 + w2 + w3 + w4),
      w3 / (w1 + w2 + w3 + w4), w4 / (w1 + w2 + w3 + w4))
  else (0.25, 0.25, 0.25, 0.25)

/-- Final weighted score of the later revision's hero scorer. -/
def finalScoreV3 (s1 s2 s3 s4 w1 w2 w3 w4 : ℝ) : ℝ :=
  s1 * (normalizeWeights4 w1 w2 w3 w4).1 +
    s2 * (normalizeWeights4 w1 w2 w3 w4).2.1 +
    s3 * (normalizeWeights4 w1 w2 w3 w4).2.2.1 +
    s4 * (normalizeWeights4 w1 w2 w3 w4).2.2.2

/-! ### Empirical-Bayes shrinkage estimator -/

/-- Modelled from the spec: the global prior rate of the empirical-Bayes
shrinkage estimator (spec section 4.1).  No implementation of this
estimator is present under `src/` — the aggregation pipeline that
precomputes confidence-adjusted rates is external — so the definition
follows the spec's words: `totalWins / totalGames` across an entire
statistics map, falling back to 0.5 if no data exists anywhere in it. -/
def globalPriorRate (statsMap : List (String × PairCount)) : ℝ :=
  if (statsMap.map fun e => e.2.wins + e.2.losses).sum = 0 then 0.5
  else (((statsMap.map fun e => e.2.wins).sum : ℕ) : ℝ) /
    (((statsMap.map fun e => e.2.wins + e.2.losses).sum : ℕ) : ℝ)

/-- Modelled from the spec: the blending step of the empirical-Bayes
shrinkage estimator,
`(priorWeight * prior + total * observedRate) / (priorWeight + total)`,
returning the prior itself when `total = 0`. -/
def bayesianShrinkage (pc : PairCount) (priorWeight prior : ℝ) : ℝ :=
  if pc.wins + pc.losses = 0 then prior
  else (priorWeight * prior + ((pc.wins + pc.losses : ℕ) : ℝ) *
      ((pc.wins : ℝ) / ((pc.wins + pc.losses : ℕ) : ℝ))) /
    (priorWeight + ((pc.wins + pc.losses : ℕ) : ℝ))

/-- Modelled from the spec: the default pseudo-count of the shrinkage
estimator. -/
def defaultPriorWeight : ℝ := 10

/-- Index (in input order) of the first of three scores attaining their
maximum: the reference value for the orchestrator's tie-breaking. -/
def firstMaxIdx3 (x y z : ℝ) : ℕ :=
  if y ≤ x then (if z ≤ x then 0 else 2) else (if z ≤ y then 1 else 2)

/-- A statistics snapshot with no data at all. -/
def emptyBattleStats : BattleStats :=
  ⟨fun _ => none, fun _ => none, fun _ => none,
    fun _ => none, fun _ => none, fun _ => none⟩

/-- A snapshot whose per-hero records all show 625 wins and no losses and
which holds no pair or combination data. -/
def allWins625Stats : BattleStats :=
  ⟨fun _ => some ⟨625, 0⟩, fun _ => none, fun _ => none,
    fun _ => none, fun _ => none, fun _ => none⟩

theorem wilsonLowerBound_zero : wilsonLowerBound 0 0 = 0 := by
  simp [wilsonLowerBound]

theorem wilsonLowerBound_of_total_zero (wins : ℕ) : wilsonLowerBound wins 0 = 0 := by
  simp [wilsonLowerBound]

theorem wilsonLowerBound_nonneg (wins total : ℕ) : 0 ≤ wilsonLowerBound wins total := by
  unfold wilsonLowerBound
  split
  · exact le_refl 0
  · exact le_max_left 0 _

/-- Unfolding of `wilsonLowerBound` when the sample is non-empty. -/
theorem wilsonLowerBound_eq (wins total : ℕ) (h : total ≠ 0) :
    wilsonLowerBound wins total =
      max 0 (((wins : ℝ) / (total : ℝ) + (1.96 : ℝ) * 1.96 / (2 * (total : ℝ)) -
        (1.96 : ℝ) * Real.sqrt ((((wins : ℝ) / (total : ℝ)) *
          (1 - (wins : ℝ) / (total : ℝ)) + (1.96 : ℝ) * 1.96 / (4 * (total : ℝ))) /
            (total : ℝ))) /
        (1 + (1.96 : ℝ) * 1.96 / (total : ℝ))) := by
  rw [wilsonLowerBound, if_neg h]

/-- Core estimate: when `0 < total` and `wins ≤ total`, the Wilson lower
bound does not exceed the raw rate `wins / total`. -/
theorem wilsonLowerBound_le_rate (wins total : ℕ) (htot : 0 < total)
    (hwt : wins ≤ total) :
    wilsonLowerBound wins total ≤ (wins : ℝ) / (total : ℝ) := by
  have hT : (0:ℝ) < (total : ℝ) := by exact_mod_cast htot
  have hTne : (total : ℝ) ≠ 0 := ne_of_gt hT
  rw [wilsonLowerBound_eq wins total (Nat.pos_iff_ne_zero.mp htot)]
  set p : ℝ := (wins : ℝ) / (total : ℝ) with hp
  have hp0 : 0 ≤ p := div_nonneg (Nat.cast_nonneg _) (le_of_lt hT)
  have hp1 : p ≤ 1 := by
    rw [hp, div_le_one hT]
    exact_mod_cast hwt
  have hdenom : (0:ℝ) < 1 + (1.96 : ℝ) * 1.96 / (total : ℝ) := by positivity
  refine max_le hp0 ?_
  rw [div_le_iff₀ hdenom]
  -- it suffices that the margin dominates `z²/(2T) - p·z²/T`
  have harg : (0:ℝ) ≤ (p * (1 - p) + (1.96 : ℝ) * 1.96 / (4 * (total : ℝ))) /
      (total : ℝ) := by
    have : (0:ℝ) ≤ p * (1 - p) := mul_nonneg hp0 (by linarith)
    positivity
  have key : (1.96 : ℝ) * 1.96 / (2 * (total : ℝ)) -
      p * ((1.96 : ℝ) * 1.96) / (total : ℝ) ≤
      (1.96 : ℝ) * Real.sqrt ((p * (1 - p) +
        (1.96 : ℝ) * 1.96 / (4 * (total : ℝ))) / (total : ℝ)) := by
    rcases le_or_lt ((1.96 : ℝ) * 1.96 / (2 * (total : ℝ)) -
        p * ((1.96 : ℝ) * 1.96) / (total : ℝ)) 0 with hneg | hposl
    · exact le_trans hneg (mul_nonneg (by norm_num) (Real.sqrt_nonneg _))
    · -- both sides nonnegative: compare squares under the square root
      have heq : (1.96 : ℝ) * 1.96 / (2 * (total : ℝ)) -
          p * ((1.96 : ℝ) * 1.96) / (total : ℝ) =
          (1.96 : ℝ) * ((1.96 : ℝ) / (total : ℝ) * ((1:ℝ)/2 - p)) := by
        ring
      rw [heq] at hposl ⊢
      have hwpos : (0:ℝ) < (1.96 : ℝ) / (total : ℝ) * ((1:ℝ)/2 - p) := by
        rcases mul_pos_iff.mp hposl with ⟨_, hw⟩ | ⟨hneg196, _⟩
        · exact hw
        · norm_num at hneg196
      have hsq : ((1.96 : ℝ) / (total : ℝ) * ((1:ℝ)/2 - p)) ^ 2 ≤
          (p * (1 - p) + (1.96 : ℝ) * 1.96 / (4 * (total : ℝ))) / (total : ℝ) := by
        have hq : ((1:ℝ)/2 - p) ^ 2 ≤ 1/4 := by nlinarith
        have hppos : (0:ℝ) ≤ p * (1 - p) := mul_nonneg hp0 (by linarith)
        have e1 : ((1.96 : ℝ) / (total : ℝ) * ((1:ℝ)/2 - p)) ^ 2 =
            ((1.96 : ℝ) * ((1:ℝ)/2 - p)) ^ 2 / ((total : ℝ) * (total : ℝ)) := by
          ring
        have e2 : (p * (1 - p) + (1.96 : ℝ) * 1.96 / (4 * (total : ℝ))) / (total : ℝ) =
            (p * (1 - p) * (total : ℝ) + (1.96 : ℝ) * 1.96 / 4) /
              ((total : ℝ) * (total : ℝ)) := by
          field_simp
          ring
        rw [e1, e2, div_le_div_iff₀ (by positivity) (by positivity)]
        have hcore : ((1.96 : ℝ) * ((1:ℝ)/2 - p)) ^ 2 ≤
            p * (1 - p) * (total : ℝ) + (1.96 : ℝ) * 1.96 / 4 := by
          nlinarith [mul_nonneg hppos (le_of_lt hT)]
        nlinarith [mul_le_mul_of_nonneg_right hcore (le_of_lt (mul_pos hT hT))]
      have hsqrt : (1.96 : ℝ) / (total : ℝ) * ((1:ℝ)/2 - p) ≤
          Real.sqrt ((p * (1 - p) + (1.96 : ℝ) * 1.96 / (4 * (total : ℝ))) /
            (total : ℝ)) :=
        (Real.le_sqrt (le_of_lt hwpos) harg).mpr hsq
      exact mul_le_mul_of_nonneg_left hsqrt (by norm_num)
  have expandp : p * (1 + (1.96 : ℝ) * 1.96 / (total : ℝ)) =
      p + p * ((1.96 : ℝ) * 1.96) / (total : ℝ) := by
    ring
  linarith [key, expandp]

theorem wilsonLowerBound_le_one (wins total : ℕ) (htot : 0 < total)
    (hwt : wins ≤ total) : wilsonLowerBound wins total ≤ 1 := by
  have h1 := wilsonLowerBound_le_rate wins total htot hwt
  have hT : (0:ℝ) < (total : ℝ) := by exact_mod_cast htot
  have : (wins : ℝ) / (total : ℝ) ≤ 1 := by
    rw [div_le_one hT]; exact_mod_cast hwt
  linarith

/-- C4: for all natural numbers `wins` and `losses` with
`total = wins + losses > 0`, `wilsonLowerBound wins total` lies in `[0,1]`
and is at most the raw rate `wins/total`; when `total = 0` it returns 0. -/
theorem wilson_bounds_and_conservative (wins losses : ℕ)
    (htot : 0 < wins + losses) :
    wilsonLowerBound wins (wins + losses) ∈ Set.Icc (0:ℝ) 1 ∧
      wilsonLowerBound wins (wins + losses) ≤
        (wins : ℝ) / ((wins + losses : ℕ) : ℝ) ∧
      wilsonLowerBound wins 0 = 0 := by
  refine ⟨⟨wilsonLowerBound_nonneg _ _, ?_⟩, ?_, wilsonLowerBound_of_total_zero wins⟩
  · exact wilsonLowerBound_le_one wins (wins + losses) htot (Nat.le_add_right _ _)
  · exact wilsonLowerBound_le_rate wins (wins + losses) htot (Nat.le_add_right _ _)

/-- Witness for C4 at `wins = 1`, `losses = 1`. -/
theorem wilson_bounds_and_conservative_witness :
    wilsonLowerBound 1 (1 + 1) ∈ Set.Icc (0:ℝ) 1 ∧
      wilsonLowerBound 1 (1 + 1) ≤ ((1 : ℕ) : ℝ) / (((1 + 1 : ℕ)) : ℝ) ∧
      wilsonLowerBound 1 0 = 0 :=
  wilson_bounds_and_conservative 1 1 (by decide)

theorem comb2_length {α : Type} (l : List α) :
    (comb2 l).length = Nat.choose l.length 2 := by
  induction l with
  | nil => rfl
  | cons x xs ih =>
      simp [comb2, ih, Nat.choose_succ_succ, Nat.choose_one_right, Nat.add_comm]

theorem comb3_length {α : Type} [LinearOrder α] (l : List α) :
    (comb3 l).length = Nat.choose l.length 3 := by
  induction l with
  | nil => rfl
  | cons x xs ih =>
      simp [comb3, ih, comb2_length, Nat.choose_succ_succ, Nat.add_comm]

theorem comb2_mem_fst {α : Type} {l : List α} {p : α × α} (h : p ∈ comb2 l) :
    p.1 ∈ l := by
  induction l with
  | nil => cases h
  | cons x xs ih =>
      rcases List.mem_append.mp h with hmap | htail
      · rcases List.mem_map.mp hmap with ⟨y, _, rfl⟩
        exact List.mem_cons_self x xs
      · exact List.mem_cons_of_mem x (ih htail)

theorem comb2_mem_snd {α : Type} {l : List α} {p : α × α} (h : p ∈ comb2 l) :
    p.2 ∈ l := by
  induction l with
  | nil => cases h
  | cons x xs ih =>
      rcases List.mem_append.mp h with hmap | htail
      · rcases List.mem_map.mp hmap with ⟨y, hy, rfl⟩
        exact List.mem_cons_of_mem x hy
      · exact List.mem_cons_of_mem x (ih htail)

/-- In a duplicate-free pool the pair loop never emits both `(a, b)` and
`(b, a)` for distinct `a`, `b`. -/
theorem comb2_asymm {α : Type} {l : List α} (hl : l.Nodup) {a b : α}
    (h₁ : (a, b) ∈ comb2 l) : (b, a) ∉ comb2 l := by
  induction l with
  | nil => cases h₁
  | cons x xs ih =>
      intro h₂
      have hx : x ∉ xs := (List.nodup_cons.mp hl).1
      have hxs : xs.Nodup := (List.nodup_cons.mp hl).2
      rcases List.mem_append.mp h₁ with hmap₁ | htail₁
      · rcases List.mem_map.mp hmap₁ with ⟨y, hy, hy₂⟩
        have hax : a = x := (Prod.mk.injEq _ _ _ _).mp hy₂.symm |>.1
        have hby : b = y := (Prod.mk.injEq _ _ _ _).mp hy₂.symm |>.2
        rcases List.mem_append.mp h₂ with hmap₂ | htail₂
        · rcases List.mem_map.mp hmap₂ with ⟨y', _, hy₂'⟩
          have hbx : b = x := (Prod.mk.injEq _ _ _ _).mp hy₂'.symm |>.1
          exact hx (hbx ▸ hby ▸ hy)
        · have : a ∈ xs := comb2_mem_snd htail₂
          exact hx (hax ▸ this)
      · rcases List.mem_append.mp h₂ with hmap₂ | htail₂
        · rcases List.mem_map.mp hmap₂ with ⟨y', _, hy₂'⟩
          have hbx : b = x := (Prod.mk.injEq _ _ _ _).mp hy₂'.symm |>.1
          have : b ∈ xs := comb2_mem_snd htail₁
          exact hx (hbx ▸ this)
        · exact ih hxs htail₁ htail₂

theorem comb2_nodup {α : Type} {l : List α} (hl : l.Nodup) :
    (comb2 l).Nodup := by
  induction l with
  | nil => exact List.nodup_nil
  | cons x xs ih =>
      have hx : x ∉ xs := (List.nodup_cons.mp hl).1
      have hxs : xs.Nodup := (List.nodup_cons.mp hl).2
      rw [comb2, List.nodup_append]
      refine ⟨hxs.map ?_, ih hxs, ?_⟩
      · intro u v huv
        exact ((Prod.mk.injEq _ _ _ _).mp huv).2
      · intro p hmap hp
        rcases List.mem_map.mp hmap with ⟨y, _, rfl⟩
        exact hx (comb2_mem_fst hp)

theorem sort3_perm {α : Type} [LinearOrder α] (a b c : α) :
    (sort3 a b c).Perm [a, b, c] :=
  List.perm_insertionSort (· ≤ ·) [a, b, c]

theorem sort3_sorted {α : Type} [LinearOrder α] (a b c : α) :
    (sort3 a b c).Sorted (· ≤ ·) :=
  List.sorted_insertionSort (· ≤ ·) [a, b, c]

theorem sort3_length {α : Type} [LinearOrder α] (a b c : α) :
    (sort3 a b c).length = 3 :=
  (sort3_perm a b c).length_eq

theorem comb3_mem_subset {α : Type} [LinearOrder α] {t : List α} :
    ∀ {l : List α}, t ∈ comb3 l → ∀ y ∈ t, y ∈ l := by
  intro l
  induction l with
  | nil => intro h; cases h
  | cons x xs ih =>
      intro h y hy
      rcases List.mem_append.mp h with hmap | htail
      · rcases List.mem_map.mp hmap with ⟨p, hp, rfl⟩
        have hmem : y ∈ [x, p.1, p.2] := (sort3_perm x p.1 p.2).mem_iff.mp hy
        rcases List.mem_cons.mp hmem with rfl | hmem₂
        · exact List.mem_cons_self _ _
        · rcases List.mem_cons.mp hmem₂ with rfl | hmem₃
          · exact List.mem_cons_of_mem x (comb2_mem_fst hp)
          · rcases List.mem_cons.mp hmem₃ with rfl | hmem₄
            · exact List.mem_cons_of_mem x (comb2_mem_snd hp)
            · cases hmem₄
      · exact List.mem_cons_of_mem x (ih htail y hy)

theorem comb3_mem_sorted {α : Type} [LinearOrder α] {l : List α} {t : List α}
    (h : t ∈ comb3 l) : t.Sorted (· ≤ ·) := by
  induction l with
  | nil => cases h
  | cons x xs ih =>
      rcases List.mem_append.mp h with hmap | htail
      · rcases List.mem_map.mp hmap with ⟨p, _, rfl⟩
        exact sort3_sorted x p.1 p.2
      · exact ih htail

theorem comb3_mem_length {α : Type} [LinearOrder α] {l : List α} {t : List α}
    (h : t ∈ comb3 l) : t.length = 3 := by
  induction l with
  | nil => cases h
  | cons x xs ih =>
      rcases List.mem_append.mp h with hmap | htail
      · rcases List.mem_map.mp hmap with ⟨p, _, rfl⟩
        exact sort3_length x p.1 p.2
      · exact ih htail

theorem perm_pair_cases {α : Type} {a b c d : α} (h : [a, b].Perm [c, d]) :
    (a = c ∧ b = d) ∨ (a = d ∧ b = c) := by
  have ha : a ∈ [c, d] := h.mem_iff.mp (by simp)
  rcases List.mem_cons.mp ha with rfl | ha₂
  · left
    refine ⟨rfl, ?_⟩
    have hbd : [b].Perm [d] := h.cons_inv
    simpa using List.perm_singleton.mp hbd
  · rcases List.mem_cons.mp ha₂ with rfl | hfalse
    · right
      refine ⟨rfl, ?_⟩
      have hswap : [c, a].Perm [a, c] := List.Perm.swap a c []
      have hbc : [b].Perm [c] := (h.trans hswap).cons_inv
      simpa using List.perm_singleton.mp hbc
    · cases hfalse

/-- Distinct position pairs produce distinct sorted triples (over a
duplicate-free pool), so the enumerator emits no duplicate subset. -/
theorem sort3_inj_on_comb2 {α : Type} [LinearOrder α] {x : α} {xs : List α}
    (hxs : xs.Nodup) {p q : α × α}
    (hp : p ∈ comb2 xs) (hq : q ∈ comb2 xs)
    (heq : sort3 x p.1 p.2 = sort3 x q.1 q.2) : p = q := by
  have hperm : ([x, p.1, p.2] : List α).Perm [x, q.1, q.2] :=
    ((sort3_perm x p.1 p.2).symm.trans (heq ▸ sort3_perm x q.1 q.2))
  have hpair : ([p.1, p.2] : List α).Perm [q.1, q.2] := hperm.cons_inv
  rcases perm_pair_cases hpair with ⟨h₁, h₂⟩ | ⟨h₁, h₂⟩
  · exact Prod.ext h₁ h₂
  · -- the swapped case forces both `(a, b)` and `(b, a)` to be emitted
    by_cases hab : p.1 = p.2
    · exact Prod.ext (hab.trans h₂) (hab.symm.trans h₁)
    · exfalso
      have hq' : (p.2, p.1) ∈ comb2 xs := by
        have : q = (p.2, p.1) := Prod.ext h₂.symm h₁.symm
        exact this ▸ hq
      have hp' : (p.1, p.2) ∈ comb2 xs := by
        have : p = (p.1, p.2) := rfl
        exact this ▸ hp
      exact comb2_asymm hxs hp' hq'

theorem comb3_nodup {α : Type} [LinearOrder α] {l : List α} (hl : l.Nodup) :
    (comb3 l).Nodup := by
  induction l with
  | nil => exact List.nodup_nil
  | cons x xs ih =>
      have hx : x ∉ xs := (List.nodup_cons.mp hl).1
      have hxs : xs.Nodup := (List.nodup_cons.mp hl).2
      rw [comb3, List.nodup_append]
      refine ⟨List.Nodup.map_on ?_ (comb2_nodup hxs), ih hxs, ?_⟩
      · intro p hp q hq heq
        exact sort3_inj_on_comb2 hxs hp hq heq
      · intro t hmap ht
        rcases List.mem_map.mp hmap with ⟨p, _, rfl⟩
        have hxmem : x ∈ sort3 x p.1 p.2 :=
          (sort3_perm x p.1 p.2).mem_iff.mpr (by simp)
        exact hx (comb3_mem_subset ht x hxmem)

theorem comb3_short {α : Type} [LinearOrder α] (l : List α)
    (h : l.length < 3) : comb3 l = [] := by
  match l, h with
  | [], _ => rfl
  | [a], _ => rfl
  | [a, b], _ => rfl

/-- C5: over a duplicate-free pool, the enumerator emits exactly
`C(n, 3)` combinations, each a sorted 3-element selection from the pool,
with no duplicate subsets; pools of fewer than 3 members give the empty
sequence. -/
theorem generate3HeroCombinations_spec (team : List String)
    (hteam : team.Nodup) :
    (generate3HeroCombinations team).length = Nat.choose team.length 3 ∧
      (∀ t ∈ generate3HeroCombinations team,
        t.length = 3 ∧ t.Sorted (· ≤ ·) ∧ ∀ y ∈ t, y ∈ team) ∧
      (generate3HeroCombinations team).Nodup ∧
      (team.length < 3 → generate3HeroCombinations team = []) := by
  by_cases hlen : team.length < 3
  · have hempty : generate3HeroCombinations team = [] := by
      simp [generate3HeroCombinations, hlen]
    have hchoose : Nat.choose team.length 3 = 0 :=
      Nat.choose_eq_zero_of_lt hlen
    simp [hempty, hchoose]
  · have heq : generate3HeroCombinations team = comb3 team := by
      simp [generate3HeroCombinations, hlen]
    rw [heq]
    exact ⟨comb3_length team,
      fun t ht => ⟨comb3_mem_length ht, comb3_mem_sorted ht,
        comb3_mem_subset ht⟩,
      comb3_nodup hteam, fun hcon => absurd hcon hlen⟩

theorem pairKey_comm (a b : String) : pairKey a b = pairKey b a := by
  unfold pairKey
  rcases le_total a b with h | h
  · by_cases h2 : b ≤ a
    · have hab : a = b := le_antisymm h h2
      subst hab
      rfl
    · rw [if_pos h, if_neg h2]
  · by_cases h2 : a ≤ b
    · have hab : a = b := le_antisymm h2 h
      subst hab
      rfl
    · rw [if_neg h2, if_pos h]

theorem getHeroPairWilson_comm (h1 h2 : String)
    (m : String → Option PairCount) :
    getHeroPairWilson h1 h2 m = getHeroPairWilson h2 h1 m := by
  unfold getHeroPairWilson
  rw [pairKey_comm]
  by_cases hg : h1 = "" ∨ h2 = ""
  · rw [if_pos hg, if_pos (Or.symm hg)]
  · rw [if_neg hg, if_neg fun hc => hg (Or.symm hc)]

theorem getSkillPairWilson_comm (s1 s2 : String)
    (m : String → Option PairCount) :
    getSkillPairWilson s1 s2 m = getSkillPairWilson s2 s1 m := by
  unfold getSkillPairWilson
  rw [pairKey_comm]
  by_cases hg : s1 = "" ∨ s2 = ""
  · rw [if_pos hg, if_pos (Or.symm hg)]
  · rw [if_neg hg, if_neg fun hc => hg (Or.symm hc)]

/-- C9: pair statistics lookups are symmetric in their two identifiers,
for hero pairs and for skill pairs alike (canonical-key invariant). -/
theorem pair_lookup_symmetric :
    (∀ (h1 h2 : String) (m : String → Option PairCount),
        getHeroPairWilson h1 h2 m = getHeroPairWilson h2 h1 m) ∧
      ∀ (s1 s2 : String) (m : String → Option PairCount),
        getSkillPairWilson s1 s2 m = getSkillPairWilson s2 s1 m :=
  ⟨getHeroPairWilson_comm, getSkillPairWilson_comm⟩

/-! ### Properties of the stable descending sort -/

theorem insertDesc_perm {α : Type} (score : α → ℝ) (x : α) (l : List α) :
    (insertDesc score x l).Perm (x :: l) := by
  induction l with
  | nil => exact List.Perm.refl _
  | cons y ys ih =>
      rw [insertDesc]
      split
      · exact List.Perm.refl _
      · exact (ih.cons y).trans (List.Perm.swap x y ys)

theorem sortFold_perm {α : Type} (score : α → ℝ) :
    ∀ (l acc : List α),
      (l.foldl (fun a x => insertDesc score x a) acc).Perm (acc ++ l) := by
  intro l
  induction l with
  | nil => intro acc; simp
  | cons x xs ih =>
      intro acc
      rw [List.foldl_cons]
      refine (ih (insertDesc score x acc)).trans ?_
      refine (List.Perm.append_right xs (insertDesc_perm score x acc)).trans ?_
      exact List.perm_middle.symm

theorem sortByScoreDesc_perm {α : Type} (score : α → ℝ) (l : List α) :
    (sortByScoreDesc score l).Perm l := by
  simpa [sortByScoreDesc] using sortFold_perm score l []

/-- Head of the stable descending sort of a three-element list: the
later element wins only on a strictly larger score. -/
theorem sortDesc_three_head {α : Type} (score : α → ℝ) (a b c : α) :
    (sortByScoreDesc score [a, b, c]).head? =
      some (if score a < score b then (if score b < score c then c else b)
        else (if score a < score c then c else a)) := by
  simp only [sortByScoreDesc, List.foldl_cons, List.foldl_nil]
  by_cases h1 : score a < score b
  · by_cases h2 : score b < score c
    · simp [insertDesc, h1, h2]
    · by_cases h3 : score a < score c
      · simp [insertDesc, h1, h2, h3]
      · simp [insertDesc, h1, h2, h3]
  · by_cases h3 : score a < score c
    · simp [insertDesc, h1, h3]
    · by_cases h4 : score b < score c
      · simp [insertDesc, h1, h3, h4]
      · simp [insertDesc, h1, h3, h4]

/-- The selection tree of the three-element sort head computes the first
maximal index when the three entries carry indices 0, 1, 2. -/
theorem selection_eq_firstMaxIdx3 (x y z : ℝ) :
    (if x < y then (if y < z then (2:ℕ) else 1)
      else (if x < z then 2 else 0)) = firstMaxIdx3 x y z := by
  unfold firstMaxIdx3
  by_cases h1 : x < y
  · rw [if_pos h1, if_neg (not_le.mpr h1)]
    by_cases h2 : y < z
    · rw [if_pos h2, if_neg (not_le.mpr h2)]
    · rw [if_neg h2, if_pos (not_lt.mp h2)]
  · rw [if_neg h1, if_pos (not_lt.mp h1)]
    by_cases h3 : x < z
    · rw [if_pos h3, if_neg (not_le.mpr h3)]
    · rw [if_neg h3, if_pos (not_lt.mp h3)]

/-- Sanity check for `firstMaxIdx3`: the selected position carries the
maximum of the three scores, and every earlier position is strictly
below the maximum. -/
theorem firstMaxIdx3_is_first_max (x y z : ℝ) :
    [x, y, z].getD (firstMaxIdx3 x y z) 0 = max x (max y z) ∧
      ∀ j < firstMaxIdx3 x y z, [x, y, z].getD j 0 < max x (max y z) := by
  have g0 : [x, y, z].getD 0 0 = x := rfl
  have g1 : [x, y, z].getD 1 0 = y := rfl
  have g2 : [x, y, z].getD 2 0 = z := rfl
  unfold firstMaxIdx3
  by_cases h1 : y ≤ x
  · by_cases h2 : z ≤ x
    · rw [if_pos h1, if_pos h2]
      exact ⟨by rw [g0, max_eq_left (max_le h1 h2)],
        fun j hj => absurd hj (Nat.not_lt_zero j)⟩
    · rw [if_pos h1, if_neg h2]
      push_neg at h2
      have hm : max x (max y z) = z := by
        rw [max_eq_right (le_trans h1 (le_of_lt h2)), max_eq_right (le_of_lt h2)]
      refine ⟨by rw [g2, hm], ?_⟩
      intro j hj
      interval_cases j
      · rw [g0, hm]; exact h2
      · rw [g1, hm]; exact lt_of_le_of_lt h1 h2
  · push_neg at h1
    by_cases h3 : z ≤ y
    · rw [if_neg (not_le.mpr h1), if_pos h3]
      have hm : max x (max y z) = y := by
        rw [max_eq_left h3, max_eq_right (le_of_lt h1)]
      refine ⟨by rw [g1, hm], ?_⟩
      intro j hj
      interval_cases j
      rw [g0, hm]; exact h1
    · rw [if_neg (not_le.mpr h1), if_neg h3]
      push_neg at h3
      have hm : max x (max y z) = z := by
        rw [max_eq_right (le_of_lt h3), max_eq_right (le_of_lt (lt_trans h1 h3))]
      refine ⟨by rw [g2, hm], ?_⟩
      intro j hj
      interval_cases j
      · rw [g0, hm]; exact lt_trans h1 h3
      · rw [g1, hm]; exact h3

/-- Selection property of the stable sort on a three-element list whose
entries carry indices 0, 1, 2. -/
theorem sorted_three_select {α : Type} (score : α → ℝ) (idx : α → ℕ)
    (a b c : α) (ha : idx a = 0) (hb : idx b = 1) (hc : idx c = 2) :
    ∃ r t, sortByScoreDesc score [a, b, c] = r :: t ∧
      idx r = firstMaxIdx3 (score a) (score b) (score c) ∧
      (r :: t).Perm [a, b, c] := by
  have hh := sortDesc_three_head score a b c
  cases hs : sortByScoreDesc score [a, b, c] with
  | nil => rw [hs] at hh; simp at hh
  | cons r t =>
      rw [hs] at hh
      have hr : r = if score a < score b then
          (if score b < score c then c else b)
        else (if score a < score c then c else a) := by
        injection hh
      refine ⟨r, t, rfl, ?_, ?_⟩
      · rw [hr]
        simp only [apply_ite idx, ha, hb, hc]
        exact selection_eq_firstMaxIdx3 (score a) (score b) (score c)
      · rw [← hs]
        exact sortByScoreDesc_perm score [a, b, c]

/-- C6: on three offered sets, both orchestrators return the index (in
input order) of a set with the maximum final score — ties broken by
input order, the first maximal element — and the returned analysis holds
the full breakdown of all three sets. -/
theorem recommend_first_max_of_three
    (A B C team cheroes cskills : List String)
    (bs : BattleStats) (o : HeroOptions) (os : SkillOptions) :
    (∃ r, recommendHeroSet [A, B, C] team bs o = some r ∧
      r.recommended_set = firstMaxIdx3
        (heroAnalysisFor team bs o 0 A).total_score
        (heroAnalysisFor team bs o 1 B).total_score
        (heroAnalysisFor team bs o 2 C).total_score ∧
      r.analysis.Perm [heroAnalysisFor team bs o 0 A,
        heroAnalysisFor team bs o 1 B, heroAnalysisFor team bs o 2 C]) ∧
    ∃ r, recommendSkillSet [A, B, C] cheroes cskills bs os = some r ∧
      r.recommended_set = firstMaxIdx3
        (skillAnalysisFor cheroes cskills bs os 0 A).total_score
        (skillAnalysisFor cheroes cskills bs os 1 B).total_score
        (skillAnalysisFor cheroes cskills bs os 2 C).total_score ∧
      r.analysis.Perm [skillAnalysisFor cheroes cskills bs os 0 A,
        skillAnalysisFor cheroes cskills bs os 1 B,
        skillAnalysisFor cheroes cskills bs os 2 C] := by
  constructor
  · have recs : mapWithIndex (heroAnalysisFor team bs o) 0 [A, B, C] =
        [heroAnalysisFor team bs o 0 A, heroAnalysisFor team bs o 1 B,
          heroAnalysisFor team bs o 2 C] := by
      norm_num [mapWithIndex]
    obtain ⟨r, t, hsort, hidx, hperm⟩ :=
      sorted_three_select (fun x => x.total_score) (fun x => x.set_index)
        (heroAnalysisFor team bs o 0 A) (heroAnalysisFor team bs o 1 B)
        (heroAnalysisFor team bs o 2 C) rfl rfl rfl
    refine ⟨⟨r.set_index, r :: t⟩, ?_, hidx, hperm⟩
    simp only [recommendHeroSet, recs, hsort]
  · have recs : mapWithIndex (skillAnalysisFor cheroes cskills bs os) 0
        [A, B, C] =
        [skillAnalysisFor cheroes cskills bs os 0 A,
          skillAnalysisFor cheroes cskills bs os 1 B,
          skillAnalysisFor cheroes cskills bs os 2 C] := by
      norm_num [mapWithIndex]
    obtain ⟨r, t, hsort, hidx, hperm⟩ :=
      sorted_three_select (fun x => x.total_score) (fun x => x.set_index)
        (skillAnalysisFor cheroes cskills bs os 0 A)
        (skillAnalysisFor cheroes cskills bs os 1 B)
        (skillAnalysisFor cheroes cskills bs os 2 C) rfl rfl rfl
    refine ⟨⟨r.set_index, r :: t⟩, ?_, hidx, hperm⟩
    simp only [recommendSkillSet, recs, hsort]

/-- C7: `updateGameState` appends the chosen set to `current_heroes` on a
hero round and to `current_skills` otherwise, appends one history entry
carrying the pre-increment round number, round type, chosen set and set
index, and increments the round number by exactly one; from the seed
heroes H1–H4 at round 1, recording the hero set H5–H7 yields the
seven-hero team at round 2. -/
theorem updateGameState_transition (s : GameState) (roundType : String)
    (chosenSet : List String) (setIndex : ℕ) :
    (updateGameState s roundType chosenSet setIndex).1.current_heroes =
      (if roundType = "hero" then s.current_heroes ++ chosenSet
        else s.current_heroes) ∧
    (updateGameState s roundType chosenSet setIndex).1.current_skills =
      (if roundType = "hero" then s.current_skills
        else s.current_skills ++ chosenSet) ∧
    (updateGameState s roundType chosenSet setIndex).1.round_history =
      s.round_history ++ [⟨s.round_number, roundType, chosenSet, setIndex⟩] ∧
    (updateGameState s roundType chosenSet setIndex).1.round_number =
      s.round_number + 1 ∧
    (updateGameState (createInitialGameState ["H1", "H2", "H3", "H4"]
        ["S1", "S2", "S3", "S4"]) "hero" ["H5", "H6", "H7"] 0).1.current_heroes =
      ["H1", "H2", "H3", "H4", "H5", "H6", "H7"] ∧
    (updateGameState (createInitialGameState ["H1", "H2", "H3", "H4"]
        ["S1", "S2", "S3", "S4"]) "hero" ["H5", "H6", "H7"] 0).1.round_number = 2 :=
  ⟨rfl, rfl, rfl, rfl, rfl, rfl⟩

/-- Counterexample to C3: at the terminal state (round number 9 > 8) the
`record_choice` transition still succeeds — `updateGameState` has no
failure channel at all; it returns an ordinary updated state (round
number 10, history appended) and the completion flag, with no validation
error distinct from scoring results. -/
theorem updateGameState_terminal_counterexample :
    (updateGameState ⟨["H1"], ["S1"], 9, []⟩ "hero" ["H9"] 0).1 =
      ⟨["H1", "H9"], ["S1"], 10, [⟨9, "hero", ["H9"], 0⟩]⟩ ∧
    (updateGameState ⟨["H1"], ["S1"], 9, []⟩ "hero" ["H9"] 0).2 = true :=
  ⟨rfl, rfl⟩

/-- C3 as amended: `updateGameState` performs no terminal-round
validation.  For every state whose round number exceeds 8 it still
performs the append/increment update successfully and merely reports
completion through the `gameComplete` flag. -/
theorem updateGameState_no_terminal_validation (s : GameState)
    (roundType : String) (chosenSet : List String) (setIndex : ℕ)
    (h : 8 < s.round_number) :
    (updateGameState s roundType chosenSet setIndex).1.round_number =
      s.round_number + 1 ∧
    (updateGameState s roundType chosenSet setIndex).1.round_history =
      s.round_history ++ [⟨s.round_number, roundType, chosenSet, setIndex⟩] ∧
    (updateGameState s roundType chosenSet setIndex).2 = true := by
  refine ⟨rfl, rfl, ?_⟩
  simp only [updateGameState, decide_eq_true_eq]
  omega

/-- Witness for the amended C3 at a concrete round-9 state. -/
theorem updateGameState_no_terminal_validation_witness :
    (updateGameState ⟨["H1"], ["S1"], 9, []⟩ "skill" ["S9"] 2).1.round_number =
      9 + 1 ∧
    (updateGameState ⟨["H1"], ["S1"], 9, []⟩ "skill" ["S9"] 2).1.round_history =
      [] ++ [⟨9, "skill", ["S9"], 2⟩] ∧
    (updateGameState ⟨["H1"], ["S1"], 9, []⟩ "skill" ["S9"] 2).2 = true :=
  updateGameState_no_terminal_validation ⟨["H1"], ["S1"], 9, []⟩ "skill"
    ["S9"] 2 (by decide)

/-! ### Frame properties of the reference-level update -/

theorem allocStr_ref (w : JSWorld) (v : List String) :
    (allocStr w v).2 = w.strArrays.length := rfl

theorem allocHist_ref (w : JSWorld) (v : List HistoryEntry) :
    (allocHist w v).2 = w.histArrays.length := rfl

theorem strLen_allocStr (w : JSWorld) (v : List String) :
    (allocStr w v).1.strArrays.length = w.strArrays.length + 1 := by
  simp [allocStr]

theorem readStr_allocStr (w : JSWorld) (v : List String) (r : ℕ)
    (h : r < w.strArrays.length) : readStr (allocStr w v).1 r = readStr w r :=
  List.getD_append _ _ _ _ h

theorem readStr_allocHist (w : JSWorld) (v : List HistoryEntry) (r : ℕ) :
    readStr (allocHist w v).1 r = readStr w r := rfl

theorem readHist_allocStr (w : JSWorld) (v : List String) (r : ℕ) :
    readHist (allocStr w v).1 r = readHist w r := rfl

theorem readHist_allocHist (w : JSWorld) (v : List HistoryEntry) (r : ℕ)
    (h : r < w.histArrays.length) :
    readHist (allocHist w v).1 r = readHist w r :=
  List.getD_append _ _ _ _ h

theorem readStr_pushStr_ne (w : JSWorld) (j : ℕ) (xs : List String) (r : ℕ)
    (h : r ≠ j) : readStr (pushStr w j xs) r = readStr w r := by
  simp only [readStr, pushStr]
  simp [List.getD_eq_getElem?_getD, List.getElem?_set_ne (Ne.symm h)]

theorem readStr_pushHist (w : JSWorld) (j : ℕ) (xs : List HistoryEntry)
    (r : ℕ) : readStr (pushHist w j xs) r = readStr w r := rfl

theorem readHist_pushStr (w : JSWorld) (j : ℕ) (xs : List String) (r : ℕ) :
    readHist (pushStr w j xs) r = readHist w r := rfl

theorem readHist_pushHist_ne (w : JSWorld) (j : ℕ) (xs : List HistoryEntry)
    (r : ℕ) (h : r ≠ j) : readHist (pushHist w j xs) r = readHist w r := by
  simp only [readHist, pushHist]
  simp [List.getD_eq_getElem?_getD, List.getElem?_set_ne (Ne.symm h)]

theorem histLen_allocStr (w : JSWorld) (v : List String) :
    (allocStr w v).1.histArrays.length = w.histArrays.length := rfl

/-- C10: the reference-level `updateGameState` never mutates the input
state: the arrays reachable from the input references read exactly as
before, the returned state is freshly built (all three array references
are new cells), and the completion flag is true exactly when the input
round number is at least 8. -/
theorem updateGameStateRef_no_mutation (w : JSWorld) (gs : GameStateRef)
    (roundType : String) (chosenSet : List String) (setIndex : ℕ)
    (hh : gs.current_heroes < w.strArrays.length)
    (hs : gs.current_skills < w.strArrays.length)
    (hr : gs.round_history < w.histArrays.length) :
    readStr (updateGameStateRef w gs roundType chosenSet setIndex).1
        gs.current_heroes = readStr w gs.current_heroes ∧
    readStr (updateGameStateRef w gs roundType chosenSet setIndex).1
        gs.current_skills = readStr w gs.current_skills ∧
    readHist (updateGameStateRef w gs roundType chosenSet setIndex).1
        gs.round_history = readHist w gs.round_history ∧
    (updateGameStateRef w gs roundType chosenSet setIndex).2.1.current_heroes ≠
        gs.current_heroes ∧
    (updateGameStateRef w gs roundType chosenSet setIndex).2.1.current_skills ≠
        gs.current_skills ∧
    (updateGameStateRef w gs roundType chosenSet setIndex).2.1.round_history ≠
        gs.round_history ∧
    (updateGameStateRef w gs roundType chosenSet setIndex).2.1.round_number =
        gs.round_number + 1 ∧
    ((updateGameStateRef w gs roundType chosenSet setIndex).2.2 = true ↔
        8 ≤ gs.round_number) := by
  have hne1 : gs.current_heroes ≠
      (allocStr w (readStr w gs.current_heroes)).2 := by
    rw [allocStr_ref]; omega
  have hlen1 : gs.current_heroes <
      (allocStr w (readStr w gs.current_heroes)).1.strArrays.length := by
    rw [strLen_allocStr]; omega
  have hlen1s : gs.current_skills <
      (allocStr w (readStr w gs.current_heroes)).1.strArrays.length := by
    rw [strLen_allocStr]; omega
  simp only [updateGameStateRef]
  refine ⟨?_, ?_, ?_, ?_, ?_, ?_, trivial, by simp⟩
  · rw [readStr_pushHist]
    split_ifs with hrt
    · rw [readStr_pushStr_ne _ _ _ _ hne1, readStr_allocHist,
        readStr_allocStr _ _ _ hlen1, readStr_allocStr _ _ _ hh]
    · have hne2 : gs.current_heroes ≠
          (allocStr (allocStr w (readStr w gs.current_heroes)).1
            (readStr (allocStr w (readStr w gs.current_heroes)).1
              gs.current_skills)).2 := by
        rw [allocStr_ref, strLen_allocStr]; omega
      rw [readStr_pushStr_ne _ _ _ _ hne2, readStr_allocHist,
        readStr_allocStr _ _ _ hlen1, readStr_allocStr _ _ _ hh]
  · rw [readStr_pushHist]
    split_ifs with hrt
    · have hne1' : gs.current_skills ≠
          (allocStr w (readStr w gs.current_heroes)).2 := by
        rw [allocStr_ref]; omega
      rw [readStr_pushStr_ne _ _ _ _ hne1', readStr_allocHist,
        readStr_allocStr _ _ _ hlen1s, readStr_allocStr _ _ _ hs]
    · have hne2' : gs.current_skills ≠
          (allocStr (allocStr w (readStr w gs.current_heroes)).1
            (readStr (allocStr w (readStr w gs.current_heroes)).1
              gs.current_skills)).2 := by
        rw [allocStr_ref, strLen_allocStr]; omega
      rw [readStr_pushStr_ne _ _ _ _ hne2', readStr_allocHist,
        readStr_allocStr _ _ _ hlen1s, readStr_allocStr _ _ _ hs]
  · have hneh : gs.round_history ≠
        (allocHist (allocStr (allocStr w (readStr w gs.current_heroes)).1
          (readStr (allocStr w (readStr w gs.current_heroes)).1
            gs.current_skills)).1
          (readHist (allocStr (allocStr w (readStr w gs.current_heroes)).1
            (readStr (allocStr w (readStr w gs.current_heroes)).1
              gs.current_skills)).1 gs.round_history)).2 := by
      rw [allocHist_ref]
      simp only [histLen_allocStr]
      omega
    rw [readHist_pushHist_ne _ _ _ _ hneh]
    split_ifs with hrt
    · rw [readHist_pushStr, readHist_allocHist _ _ _ (by
        simp only [histLen_allocStr]; omega), readHist_allocStr,
        readHist_allocStr]
    · rw [readHist_pushStr, readHist_allocHist _ _ _ (by
        simp only [histLen_allocStr]; omega), readHist_allocStr,
        readHist_allocStr]
  · rw [allocStr_ref]; omega
  · rw [allocStr_ref, strLen_allocStr]; omega
  · rw [allocHist_ref]
    simp only [histLen_allocStr]
    omega

/-- Witness for C10 at a concrete seeded world. -/
theorem updateGameStateRef_no_mutation_witness :
    readStr (updateGameStateRef
        ⟨[["H1", "H2", "H3", "H4"], ["S1", "S2", "S3", "S4"]], [[]]⟩
        ⟨0, 1, 1, 0⟩ "hero" ["H5", "H6", "H7"] 0).1 0 =
      readStr ⟨[["H1", "H2", "H3", "H4"], ["S1", "S2", "S3", "S4"]], [[]]⟩ 0 ∧
    readStr (updateGameStateRef
        ⟨[["H1", "H2", "H3", "H4"], ["S1", "S2", "S3", "S4"]], [[]]⟩
        ⟨0, 1, 1, 0⟩ "hero" ["H5", "H6", "H7"] 0).1 1 =
      readStr ⟨[["H1", "H2", "H3", "H4"], ["S1", "S2", "S3", "S4"]], [[]]⟩ 1 ∧
    readHist (updateGameStateRef
        ⟨[["H1", "H2", "H3", "H4"], ["S1", "S2", "S3", "S4"]], [[]]⟩
        ⟨0, 1, 1, 0⟩ "hero" ["H5", "H6", "H7"] 0).1 0 =
      readHist ⟨[["H1", "H2", "H3", "H4"], ["S1", "S2", "S3", "S4"]], [[]]⟩ 0 ∧
    (updateGameStateRef
        ⟨[["H1", "H2", "H3", "H4"], ["S1", "S2", "S3", "S4"]], [[]]⟩
        ⟨0, 1, 1, 0⟩ "hero" ["H5", "H6", "H7"] 0).2.1.current_heroes ≠ 0 ∧
    (updateGameStateRef
        ⟨[["H1", "H2", "H3", "H4"], ["S1", "S2", "S3", "S4"]], [[]]⟩
        ⟨0, 1, 1, 0⟩ "hero" ["H5", "H6", "H7"] 0).2.1.current_skills ≠ 1 ∧
    (updateGameStateRef
        ⟨[["H1", "H2", "H3", "H4"], ["S1", "S2", "S3", "S4"]], [[]]⟩
        ⟨0, 1, 1, 0⟩ "hero" ["H5", "H6", "H7"] 0).2.1.round_history ≠ 0 ∧
    (updateGameStateRef
        ⟨[["H1", "H2", "H3", "H4"], ["S1", "S2", "S3", "S4"]], [[]]⟩
        ⟨0, 1, 1, 0⟩ "hero" ["H5", "H6", "H7"] 0).2.1.round_number = 1 + 1 ∧
    ((updateGameStateRef
        ⟨[["H1", "H2", "H3", "H4"], ["S1", "S2", "S3", "S4"]], [[]]⟩
        ⟨0, 1, 1, 0⟩ "hero" ["H5", "H6", "H7"] 0).2.2 = true ↔ 8 ≤ 1) :=
  updateGameStateRef_no_mutation
    ⟨[["H1", "H2", "H3", "H4"], ["S1", "S2", "S3", "S4"]], [[]]⟩
    ⟨0, 1, 1, 0⟩ "hero" ["H5", "H6", "H7"] 0 (by decide) (by decide)
    (by decide)

/-! ### Zero-evidence handling in the scorers -/

/-- Counterexample to C1: in the cited revision a current-team pair with
zero observed games is not excluded from the sub-score — with one
current hero, one candidate hero and no pair data at all, the
current-team synergy sub-score evaluates to the penalty value −2, not to
the 0 an excluded pair would leave behind. -/
theorem unknown_pair_penalized_counterexample :
    (heroAnalysisFor ["A"] emptyBattleStats defaultHeroOptions 0
      ["B"]).current_team_synergy = -2 ∧ ((-2 : ℝ) ≠ 0) := by
  constructor
  · have hA : ("A" : String) ≠ "" := by decide
    have hB : ("B" : String) ≠ "" := by decide
    simp [heroAnalysisFor, emptyBattleStats, defaultHeroOptions, pairsOf,
      synergyLoop, pairStep, normalizePairSum, getHeroPairWilson, hA, hB]
    norm_num
  · norm_num

/-- C1 as amended: a statistics lookup that finds no entry returns the
zero-evidence marker without failing, but in the cited scorer revision a
pair with zero observed games is not excluded from the sub-score's
average: it increments the pair counter (the average's denominator) and
subtracts `unknownPairPenalty` from the sub-score's sum, for hero pairs
and skill pairs alike.  The later scorer revision excludes such pairs
exactly as the spec describes: its loop leaves the accumulator untouched
whenever the pair's sample size is below the positive `minGames` floor. -/
theorem zero_games_pair_handling :
    (∀ (m : String → Option PairCount) (h1 h2 : String),
        m (pairKey h1 h2) = none → getHeroPairWilson h1 h2 m = ⟨0, 0⟩) ∧
    (∀ (m : String → Option PairCount) (s1 s2 : String),
        m (pairKey s1 s2) = none → getSkillPairWilson s1 s2 m = ⟨0, 0⟩) ∧
    (∀ (mg : ℕ) (mw wt up lp : ℝ) (lookup : String × String → WilsonResult)
        (acc : SynAcc) (p : String × String), (lookup p).total = 0 →
        pairStep mg mw wt up lp lookup acc p =
          ⟨acc.sum - up, acc.pairs + 1, acc.unknown + 1, acc.lowcount⟩) ∧
    (∀ (mg : ℕ) (m : String → Option PairCountW) (acc : ℝ × ℕ)
        (p : String × String), 0 < mg →
        (getHeroPairWinRate p.1 p.2 m).total = 0 →
        pairStatsStepV3 mg m acc p = acc) := by
  refine ⟨?_, ?_, ?_, ?_⟩
  · intro m h1 h2 h
    by_cases hg : h1 = "" ∨ h2 = ""
    · simp [getHeroPairWilson, hg]
    · simp [getHeroPairWilson, hg, h]
  · intro m s1 s2 h
    by_cases hg : s1 = "" ∨ s2 = ""
    · simp [getSkillPairWilson, hg]
    · simp [getSkillPairWilson, hg, h]
  · intro mg mw wt up lp lookup acc p h
    simp [pairStep, h]
  · intro mg m acc p hmg h
    simp only [pairStatsStepV3, h]
    rw [if_neg (by omega)]

/-- Witness for the amended C1 on concrete lookups and accumulators. -/
theorem zero_games_pair_handling_witness :
    getHeroPairWilson "a" "b" (fun _ => none) = ⟨0, 0⟩ ∧
    getSkillPairWilson "a" "b" (fun _ => none) = ⟨0, 0⟩ ∧
    pairStep 2 (1/2) 20 2 (1/2) (fun _ => ⟨0, 0⟩) ⟨0, 0, 0, 0⟩ ("a", "b") =
      ⟨0 - 2, 0 + 1, 0 + 1, 0⟩ ∧
    pairStatsStepV3 1 (fun _ => none) (0, 0) ("a", "b") = (0, 0) :=
  ⟨zero_games_pair_handling.1 (fun _ => none) "a" "b" rfl,
    zero_games_pair_handling.2.1 (fun _ => none) "a" "b" rfl,
    zero_games_pair_handling.2.2.1 2 (1/2) 20 2 (1/2) (fun _ => ⟨0, 0⟩)
      ⟨0, 0, 0, 0⟩ ("a", "b") rfl,
    zero_games_pair_handling.2.2.2 1 (fun _ => none) (0, 0) ("a", "b")
      (by decide) rfl⟩

/-! ### Scale of the final score -/

/-- Exact value of the Wilson lower bound of a spotless 625-game record:
with `phat = 1` the margin and the centre offset cancel, leaving
`1 / (1 + z²/625)`. -/
theorem wilsonLowerBound_625 : wilsonLowerBound 625 625 = 390625 / 393026 := by
  rw [wilsonLowerBound_eq 625 625 (by decide)]
  push_cast
  rw [show ((625:ℝ) / 625 * (1 - 625 / 625) + 1.96 * 1.96 / (4 * 625)) / 625 =
      ((49:ℝ) / 31250) ^ 2 by norm_num]
  rw [Real.sqrt_sq (by norm_num)]
  rw [max_eq_right (by norm_num)]
  norm_num

/-- The full-combination loop is inert when no combination data exists. -/
theorem foldl_comboStep_none (mg : ℕ) (mw wt : ℝ) (l : List (List String))
    (acc : ℝ × ℕ) :
    l.foldl (comboStep mg mw wt fun _ => none) acc = acc := by
  induction l generalizing acc with
  | nil => rfl
  | cons x xs ih =>
      rw [List.foldl_cons, show comboStep mg mw wt (fun _ => none) acc x = acc
        from rfl]
      exact ih acc

/-- Counterexample to C2: the cited scorer applies no weight
normalization and its total score is not confined to a 0–100 scale.
With an empty current team and three candidate heroes whose records are
625 wins each (and no pair/combination data), the total score evaluates
to 116401448/393026 ≈ 296.2 > 100. -/
theorem total_score_exceeds_scale_counterexample :
    (heroAnalysisFor [] allWins625Stats defaultHeroOptions 0
      ["H1", "H2", "H3"]).total_score = 116401448 / 393026 ∧
    ¬((116401448 : ℝ) / 393026 ≤ 100) := by
  constructor
  · have h1 : ("H1" : String) ≠ "" := by decide
    have h2 : ("H2" : String) ≠ "" := by decide
    have h3 : ("H3" : String) ≠ "" := by decide
    simp [heroAnalysisFor, allWins625Stats, defaultHeroOptions, pairsOf,
      synergyLoop, pairStep, comb2, normalizePairSum, getHeroPairWilson,
      getHeroConfidenceScore, foldl_comboStep_none, wilsonLowerBound_625,
      h1, h2, h3]
    norm_num
  · norm_num

/-- C2 as amended: the cited scorer revision applies the configured
weights without normalization and its total score can exceed 100; in the
later revision the four configured non-negative sub-score weights are
normalized to sum to 1 (equal weighting, 0.25 each, when they sum to 0)
and the final weighted score lies on the 0–100 scale whenever each
sub-score does. -/
theorem weights_normalized_V3 (s1 s2 s3 s4 w1 w2 w3 w4 : ℝ)
    (hs1 : s1 ∈ Set.Icc (0:ℝ) 100) (hs2 : s2 ∈ Set.Icc (0:ℝ) 100)
    (hs3 : s3 ∈ Set.Icc (0:ℝ) 100) (hs4 : s4 ∈ Set.Icc (0:ℝ) 100)
    (hw1 : 0 ≤ w1) (hw2 : 0 ≤ w2) (hw3 : 0 ≤ w3) (hw4 : 0 ≤ w4) :
    (normalizeWeights4 w1 w2 w3 w4).1 + (normalizeWeights4 w1 w2 w3 w4).2.1 +
      (normalizeWeights4 w1 w2 w3 w4).2.2.1 +
      (normalizeWeights4 w1 w2 w3 w4).2.2.2 = 1 ∧
    finalScoreV3 s1 s2 s3 s4 w1 w2 w3 w4 ∈ Set.Icc (0:ℝ) 100 := by
  obtain ⟨hs1l, hs1r⟩ := Set.mem_Icc.mp hs1
  obtain ⟨hs2l, hs2r⟩ := Set.mem_Icc.mp hs2
  obtain ⟨hs3l, hs3r⟩ := Set.mem_Icc.mp hs3
  obtain ⟨hs4l, hs4r⟩ := Set.mem_Icc.mp hs4
  by_cases hpos : 0 < w1 + w2 + w3 + w4
  · have hsum : w1 / (w1 + w2 + w3 + w4) + w2 / (w1 + w2 + w3 + w4) +
        w3 / (w1 + w2 + w3 + w4) + w4 / (w1 + w2 + w3 + w4) = 1 := by
      field_simp
    have hn1 : 0 ≤ w1 / (w1 + w2 + w3 + w4) := div_nonneg hw1 (le_of_lt hpos)
    have hn2 : 0 ≤ w2 / (w1 + w2 + w3 + w4) := div_nonneg hw2 (le_of_lt hpos)
    have hn3 : 0 ≤ w3 / (w1 + w2 + w3 + w4) := div_nonneg hw3 (le_of_lt hpos)
    have hn4 : 0 ≤ w4 / (w1 + w2 + w3 + w4) := div_nonneg hw4 (le_of_lt hpos)
    simp only [normalizeWeights4, finalScoreV3, if_pos hpos]
    refine ⟨hsum, Set.mem_Icc.mpr ⟨?_, ?_⟩⟩
    · have := mul_nonneg hs1l hn1
      have := mul_nonneg hs2l hn2
      have := mul_nonneg hs3l hn3
      have := mul_nonneg hs4l hn4
      linarith
    · have b1 := mul_le_mul_of_nonneg_right hs1r hn1
      have b2 := mul_le_mul_of_nonneg_right hs2r hn2
      have b3 := mul_le_mul_of_nonneg_right hs3r hn3
      have b4 := mul_le_mul_of_nonneg_right hs4r hn4
      linarith
  · simp only [normalizeWeights4, finalScoreV3, if_neg hpos]
    refine ⟨by norm_num, Set.mem_Icc.mpr ⟨?_, ?_⟩⟩
    · nlinarith
    · nlinarith

/-- Witness for the amended C2 at sub-scores 50 and unit weights. -/
theorem weights_normalized_V3_witness :
    (normalizeWeights4 1 1 1 1).1 + (normalizeWeights4 1 1 1 1).2.1 +
      (normalizeWeights4 1 1 1 1).2.2.1 +
      (normalizeWeights4 1 1 1 1).2.2.2 = 1 ∧
    finalScoreV3 50 50 50 50 1 1 1 1 ∈ Set.Icc (0:ℝ) 100 :=
  weights_normalized_V3 50 50 50 50 1 1 1 1
    (by norm_num [Set.mem_Icc]) (by norm_num [Set.mem_Icc])
    (by norm_num [Set.mem_Icc]) (by norm_num [Set.mem_Icc])
    (by norm_num) (by norm_num) (by norm_num) (by norm_num)

/-! ### Empirical-Bayes shrinkage estimator -/

/-- C8: the shrinkage estimator computes a global prior rate
`totalWins / totalGames` over the whole statistics map (0.5 when the map
holds no games at all), blends
`(priorWeight·prior + total·observedRate) / (priorWeight + total)` with
the default pseudo-count 10 when `total > 0`, and returns the prior
itself when `total = 0`. -/
theorem shrinkage_estimator_spec (m : List (String × PairCount))
    (pc : PairCount) :
    ((m.map fun e => e.2.wins + e.2.losses).sum = 0 →
      globalPriorRate m = 0.5) ∧
    ((m.map fun e => e.2.wins + e.2.losses).sum ≠ 0 →
      globalPriorRate m = (((m.map fun e => e.2.wins).sum : ℕ) : ℝ) /
        (((m.map fun e => e.2.wins + e.2.losses).sum : ℕ) : ℝ)) ∧
    (pc.wins + pc.losses ≠ 0 →
      bayesianShrinkage pc defaultPriorWeight (globalPriorRate m) =
        (10 * globalPriorRate m + ((pc.wins + pc.losses : ℕ) : ℝ) *
          ((pc.wins : ℝ) / ((pc.wins + pc.losses : ℕ) : ℝ))) /
        (10 + ((pc.wins + pc.losses : ℕ) : ℝ))) ∧
    (pc.wins + pc.losses = 0 →
      bayesianShrinkage pc defaultPriorWeight (globalPriorRate m) =
        globalPriorRate m) := by
  refine ⟨fun h => ?_, fun h => ?_, fun h => ?_, fun h => ?_⟩
  · unfold globalPriorRate
    rw [if_pos h]
  · unfold globalPriorRate
    rw [if_neg h]
  · unfold bayesianShrinkage defaultPriorWeight
    rw [if_neg h]
  · unfold bayesianShrinkage
    rw [if_pos h]

/-- Witness for C8 on an empty map and on a 3–1 record. -/
theorem shrinkage_estimator_spec_witness :
    globalPriorRate [] = 0.5 ∧
    globalPriorRate [("h", ⟨3, 1⟩)] =
      ((((([("h", (⟨3, 1⟩ : PairCount))].map fun e => e.2.wins).sum : ℕ)) : ℝ) /
        (((([("h", (⟨3, 1⟩ : PairCount))].map
          fun e => e.2.wins + e.2.losses).sum : ℕ)) : ℝ)) ∧
    bayesianShrinkage ⟨2, 2⟩ defaultPriorWeight (globalPriorRate []) =
      (10 * globalPriorRate [] + (((2 + 2 : ℕ)) : ℝ) *
        (((2 : ℕ) : ℝ) / (((2 + 2 : ℕ)) : ℝ))) / (10 + (((2 + 2 : ℕ)) : ℝ)) ∧
    bayesianShrinkage ⟨0, 0⟩ defaultPriorWeight (globalPriorRate []) =
      globalPriorRate [] :=
  ⟨(shrinkage_estimator_spec [] ⟨0, 0⟩).1 rfl,
    (shrinkage_estimator_spec [("h", ⟨3, 1⟩)] ⟨0, 0⟩).2.1 (by decide),
    (shrinkage_estimator_spec [] ⟨2, 2⟩).2.2.1 (by decide),
    (shrinkage_estimator_spec [] ⟨0, 0⟩).2.2.2 rfl⟩

/-- Witness for C5 on the concrete pool of four heroes. -/
theorem generate3HeroCombinations_spec_witness :
    (generate3HeroCombinations ["a", "b", "c", "d"]).length =
        Nat.choose (["a", "b", "c", "d"] : List String).length 3 ∧
      (∀ t ∈ generate3HeroCombinations ["a", "b", "c", "d"],
        t.length = 3 ∧ t.Sorted (· ≤ ·) ∧ ∀ y ∈ t, y ∈ ["a", "b", "c", "d"]) ∧
      (generate3HeroCombinations ["a", "b", "c", "d"]).Nodup ∧
      ((["a", "b", "c", "d"] : List String).length < 3 →
        generate3HeroCombinations ["a", "b", "c", "d"] = []) :=
  generate3HeroCombinations_spec ["a", "b", "c", "d"] (by decide)

end
